import Mathlib

/-!
Verification of the TradeSage hypothesis-analysis system.

The repository ships the frontend (React dashboard, API client, text
utilities) and deployment scripts; the orchestration engine itself
(stages, orchestrator state machine, Result Aggregator) is described by
the specification but its implementation is not part of the shipped
sources.  Accordingly:

* the Result Aggregator and the Orchestrator pipeline are modelled here
  from the specification (definitions marked `Modelled from the spec:`);
* the frontend API client (`processHypothesis`, the three mode-specific
  payload builders, `handleFormSubmit`) and the text utility
  `extractQuoteAndReason` are shallow embeddings of the JavaScript
  sources.
-/

namespace TradeSage

/-- Evidence strength classification (`Strong | Moderate | Weak`). -/
inductive Strength where
  | Weak
  | Moderate
  | Strong
deriving DecidableEq, Repr

/-- Numeric rank of a strength, used to compare strengths. -/
def Strength.toNat : Strength → Nat
  | .Weak => 0
  | .Moderate => 1
  | .Strong => 2

/-- The higher of two strengths. -/
def smax (a b : Strength) : Strength :=
  if a.toNat ≤ b.toNat then b else a

/-- Polarity of an evidence item (`confirms | contradicts`). -/
inductive Polarity where
  | confirms
  | contradicts
deriving DecidableEq, Repr

/-- Evidence Item: quote, reason, source identifier, strength, polarity. -/
structure EvidenceItem where
  quote : String
  reason : String
  source : String
  strength : Strength
  polarity : Polarity
deriving DecidableEq, Repr

/-- Modelled from the spec: confidence-score weights are configuration,
not hard-coded (§4.3).  `strong`/`moderate`/`weak` are per-item weights,
`baseline` the neutral starting score. -/
structure Weights where
  strong : Int
  moderate : Int
  weak : Int
  baseline : Int
deriving DecidableEq, Repr

/-- The example weight configuration of the spec:
`score = clamp(50 + 5*strongConf + 2*modConf - 5*strongContra - 2*modContra, 0, 100)`. -/
def defaultWeights : Weights := ⟨5, 2, 0, 50⟩

/-- Weight of one strength class under a configuration. -/
def wt (w : Weights) : Strength → Int
  | .Strong => w.strong
  | .Moderate => w.moderate
  | .Weak => w.weak

/-- Total weight contributed by a list of evidence items. -/
def sumW (w : Weights) (l : List EvidenceItem) : Int :=
  l.foldr (fun i acc => wt w i.strength + acc) 0

/-- Clamp an integer score into the interval [0, 100]. -/
def clamp (v : Int) : Int :=
  if v < 0 then 0 else if 100 < v then 100 else v

/-- Modelled from the spec: deduplication helper — insert one item into an
already-deduplicated list; on an identical (source, quote) pair the
existing entry keeps the higher strength (§4.3). -/
def insertItem (x : EvidenceItem) : List EvidenceItem → List EvidenceItem
  | [] => [x]
  | y :: ys =>
    if y.source = x.source ∧ y.quote = x.quote then
      { y with strength := smax y.strength x.strength } :: ys
    else
      y :: insertItem x ys

/-- Modelled from the spec: deduplicate evidence items by (source, quote),
keeping the higher strength on conflict (§4.3). -/
def dedup : List EvidenceItem → List EvidenceItem
  | [] => []
  | x :: xs => insertItem x (dedup xs)

/-- No two entries of a list share a (source, quote) pair. -/
def distinctKeys (m : List EvidenceItem) : Prop :=
  m.Pairwise (fun a b => ¬(a.source = b.source ∧ a.quote = b.quote))

/-- Aggregated, normalized output of the Result Aggregator. -/
structure AggResult where
  confirmations : List EvidenceItem
  contradictions : List EvidenceItem
  confirmationsCount : Nat
  contradictionsCount : Nat
  confidence : Int
  synthesis : String
  recommendations : String
deriving DecidableEq, Repr

/-- The fixed fallback text used when synthesis/recommendations are empty. -/
def insufficientEvidence : String := "Insufficient evidence available for analysis"

/-- Modelled from the spec: the Result Aggregator (§4.3).  Merges the
confirmation/contradiction lists, deduplicates by (source, quote) keeping
the higher strength, computes the clamped weighted confidence score, and
normalizes output shape (counts mirror list lengths; synthesis and
recommendations fall back to the fixed string when empty). -/
def aggregate (w : Weights) (items : List EvidenceItem)
    (synthIn recIn : Option String) : AggResult :=
  let conf := dedup (items.filter (fun i => decide (i.polarity = Polarity.confirms)))
  let contra := dedup (items.filter (fun i => decide (i.polarity = Polarity.contradicts)))
  { confirmations := conf
    contradictions := contra
    confirmationsCount := conf.length
    contradictionsCount := contra.length
    confidence := clamp (w.baseline + sumW w conf - sumW w contra)
    synthesis :=
      if items.isEmpty ∨ synthIn.getD "" = "" then insufficientEvidence
      else synthIn.getD ""
    recommendations :=
      if items.isEmpty ∨ recIn.getD "" = "" then insufficientEvidence
      else recIn.getD "" }

/-- Count of items of a given strength, as an integer. -/
def countStrength (s : Strength) (l : List EvidenceItem) : Int :=
  ((l.countP (fun i => decide (i.strength = s))) : Nat)

/-- Evidence snippet returned by the Evidence Provider: text with a
source identifier and timestamp. -/
structure Snippet where
  text : String
  source : String
  timestamp : Nat
deriving DecidableEq, Repr

/-- Orchestrator state machine states (§4.2):
`Init → ContextDone → ResearchDone → EvidenceClassified → Synthesized →
Finalized`, plus the terminal `Aborted`. -/
inductive OrchState where
  | Init
  | ContextDone
  | ResearchDone
  | EvidenceClassified
  | Synthesized
  | Finalized
  | Aborted
deriving DecidableEq, Repr

/-- One stage-trace entry: stage name and its outcome status. -/
structure TraceEntry where
  stage : String
  status : String
deriving DecidableEq, Repr

/-- The terminal Analysis Result handed to the caller. -/
structure RunResult where
  finalState : OrchState
  status : String
  processedHypothesis : String
  contradictions : List EvidenceItem
  confirmations : List EvidenceItem
  confidence : Int
  synthesis : String
  recommendations : String
  alerts : List String
  trace : List TraceEntry
deriving DecidableEq, Repr

/-- The fixed stage-declaration order of the pipeline. -/
def stageNames : List String :=
  ["Context", "Research", "Contradiction/Confirmation", "Synthesis", "Alert"]

/-- Modelled from the spec: the Orchestrator pipeline run (§4.2, §5, §7).
External collaborators are parameters: `normalize` is the Reasoning
Capability used by the Context Stage (`none` = normalization failure, the
stage degrades and the raw text is used); `provider` is the Evidence
Provider (`none` = the query failed after its retry budget and is
excluded); `classify` is the Reasoning Capability judgment of the
Contradiction/Confirmation Stage (`none` = the snippet could not be
classified); `synthIn`/`recIn` are the Synthesis Stage outputs; `reorder`
models the nondeterministic completion order of the parallel research
fan-out (merged results may arrive in any order); `mkQueries` derives the
evidence queries from the processed hypothesis.  An empty hypothesis is
`UnrecoverableInput` and aborts the run with status "error"; every other
failure is absorbed as a degraded stage and the run finalizes with
status "success" or "partial". -/
def runOrchestrator (normalize : String → Option String)
    (provider : String → Option (List Snippet))
    (classify : Snippet → Option EvidenceItem)
    (synthIn recIn : Option String)
    (reorder : List Snippet → List Snippet)
    (mkQueries : String → List String)
    (hyp : String) : RunResult :=
  if hyp = "" then
    { finalState := .Aborted
      status := "error"
      processedHypothesis := ""
      contradictions := []
      confirmations := []
      confidence := 0
      synthesis := ""
      recommendations := ""
      alerts := []
      trace := [⟨"Context", "failed"⟩] }
  else
    let ctx := normalize hyp
    let processed := ctx.getD hyp
    let ctxStatus := if ctx.isSome then "ok" else "degraded"
    let qs := mkQueries processed
    let notes := reorder ((qs.filterMap provider).flatten)
    let resStatus := if qs.all (fun q => (provider q).isSome) then "ok" else "degraded"
    let items := notes.filterMap classify
    let ccStatus :=
      if notes.isEmpty then "ok"
      else if items.isEmpty then "failed"
      else if items.length < notes.length then "degraded"
      else "ok"
    let synthStatus := if synthIn.isSome then "ok" else "degraded"
    let agg := aggregate defaultWeights items synthIn recIn
    let alerts := if agg.confidence < 40 then ["confidence below 40"] else []
    let status :=
      if ctxStatus = "ok" ∧ resStatus = "ok" ∧ ccStatus = "ok" ∧ synthStatus = "ok"
      then "success" else "partial"
    { finalState := .Finalized
      status := status
      processedHypothesis := processed
      contradictions := agg.contradictions
      confirmations := agg.confirmations
      confidence := agg.confidence
      synthesis := agg.synthesis
      recommendations := agg.recommendations
      alerts := alerts
      trace := [⟨"Context", ctxStatus⟩, ⟨"Research", resStatus⟩,
                ⟨"Contradiction/Confirmation", ccStatus⟩,
                ⟨"Synthesis", synthStatus⟩, ⟨"Alert", "ok"⟩] }

/-! Frontend embeddings, from `frontend/src` sources. -/

/-- Form state of the dashboard submission form (`TradingDashboard`). -/
structure FormData where
  mode : String
  hypothesis : String
  idea : String
  context : String
deriving DecidableEq, Repr

/-- The JSON body posted to the orchestrator `/process` endpoint:
the `mode` field plus at most one mode-specific payload field
(`none` = the field is absent from the object). -/
structure ProcessPayload where
  mode : String
  hypothesis : Option String
  idea : Option String
  context : Option String
deriving DecidableEq, Repr

/-- Embedding of `handleFormSubmit`'s payload construction
(TradingDashboard): `generate` sends `context`, `refine` sends `idea`,
anything else sends `hypothesis` under mode `analyze`. -/
def handleFormSubmitPayload (fd : FormData) : ProcessPayload :=
  if fd.mode = "generate" then
    ⟨"generate", none, none, some fd.context⟩
  else if fd.mode = "refine" then
    ⟨"refine", none, some fd.idea, none⟩
  else
    ⟨"analyze", some fd.hypothesis, none, none⟩

/-- Embedding of `TradeSageAPI.generateHypothesis`'s request body. -/
def generateHypothesisPayload (context : String) : ProcessPayload :=
  ⟨"generate", none, none, some context⟩

/-- Embedding of `TradeSageAPI.refineIdea`'s request body. -/
def refineIdeaPayload (idea : String) : ProcessPayload :=
  ⟨"refine", none, some idea, none⟩

/-- Embedding of `TradeSageAPI.analyzeHypothesis`'s request body. -/
def analyzeHypothesisPayload (hypothesis : String) : ProcessPayload :=
  ⟨"analyze", some hypothesis, none, none⟩

/-- An HTTP response as seen by the API client: `ok` flag, numeric
status, and the body's JSON parse (`none` = `response.json()` rejects
because the body is not parseable JSON). -/
structure HttpResponse (α : Type) where
  ok : Bool
  statusCode : Nat
  jsonBody : Option α
deriving DecidableEq, Repr

/-- Embedding of `TradeSageAPI.processHypothesis` (tradeSageApi.js).
The fetch outcome is the input: `none` models a network failure of
`fetch` itself.  A non-ok response throws `HTTP error! status: N`;
an unparseable body makes `response.json()` reject; otherwise the
parsed body is returned unchanged.  The catch block logs and rethrows,
so every failure surfaces as an error to the caller. -/
def processHypothesis {α : Type} (fetched : Option (HttpResponse α)) :
    Except String α :=
  match fetched with
  | none => Except.error "fetch failed"
  | some resp =>
    if resp.ok = false then
      Except.error ("HTTP error! status: " ++ toString resp.statusCode)
    else
      match resp.jsonBody with
      | none => Except.error "invalid JSON body"
      | some j => Except.ok j

/-- Whether an `Except` result is an error. -/
def isErr {α : Type} : Except String α → Bool
  | .error _ => true
  | .ok _ => false

/-! Embedding of `extractQuoteAndReason` (utils/textUtils.js).  The two
regexes are modelled over character lists. -/

/-- The quote-delimiter character class of the regex
`["'""]([^"'""]*)["'""]` (bytes 22 27 22 22): the ASCII double quote —
listed three times in the class — and the ASCII single quote, so the
effective delimiter set is exactly those two characters. -/
def isQuoteDelim (c : Char) : Bool :=
  c = Char.ofNat 34 || c = Char.ofNat 39

/-- First match of the quote regex: the regex engine matches at the
first quote delimiter that is followed (after a run of non-delimiters)
by a second delimiter; the capture group is the run between them.
Returns `none` when no such match exists anywhere in the string. -/
def firstQuotedBody : List Char → Option (List Char)
  | [] => none
  | c :: rest =>
    if isQuoteDelim c then
      let body := rest.takeWhile (fun d => !isQuoteDelim d)
      let post := rest.dropWhile (fun d => !isQuoteDelim d)
      if post.isEmpty then none else some body
    else
      firstQuotedBody rest

/-- Case-insensitive prefix test, modelling the regex `/i` flag. -/
def matchesCI : List Char → List Char → Bool
  | [], _ => true
  | _ :: _, [] => false
  | p :: ps, c :: cs => p.toLower = c.toLower && matchesCI ps cs

/-- Remainder of the input after the first case-insensitive occurrence
of the pattern, or `none` when the pattern does not occur. -/
def findAfterCI (pat : List Char) : List Char → Option (List Char)
  | [] => if pat.isEmpty then some [] else none
  | c :: t =>
    if matchesCI pat (c :: t) then some ((c :: t).drop pat.length)
    else findAfterCI pat t

/-- The JavaScript `\s` whitespace class (ASCII part). -/
def isJsSpace (c : Char) : Bool :=
  c = ' ' || c = Char.ofNat 9 || c = Char.ofNat 10 || c = Char.ofNat 13 ||
  c = Char.ofNat 11 || c = Char.ofNat 12

/-- JavaScript line terminators, which `.` does not match. -/
def isLineTerm (c : Char) : Bool :=
  c = Char.ofNat 10 || c = Char.ofNat 13 || c = Char.ofNat 8232 || c = Char.ofNat 8233

/-- Capture group of `\s*(.*)`: skip whitespace, then take the rest of
the line. -/
def captureRestOfLine (cs : List Char) : List Char :=
  (cs.dropWhile isJsSpace).takeWhile (fun c => !isLineTerm c)

/-- Combined reason extraction:
`text.match(/Analysis:\s*(.*)/i) || text.match(/Reason:\s*(.*)/i)`. -/
def reasonCapture (cs : List Char) : Option (List Char) :=
  match findAfterCI "Analysis:".toList cs with
  | some rest => some (captureRestOfLine rest)
  | none =>
    match findAfterCI "Reason:".toList cs with
    | some rest => some (captureRestOfLine rest)
    | none => none

/-- Quote/reason pair returned by `extractQuoteAndReason`. -/
structure QuoteReason where
  quote : String
  reason : String
deriving DecidableEq, Repr

/-- Embedding of `extractQuoteAndReason` (utils/textUtils.js).  The
input is `Option String`: `none` models the falsy non-string inputs
(null/undefined), and the empty string is the falsy string. -/
def extractQuoteAndReason (text : Option String) : QuoteReason :=
  match text with
  | none => ⟨"", ""⟩
  | some s =>
    if s = "" then ⟨"", ""⟩
    else
      let cs := s.toList
      let quote :=
        match firstQuotedBody cs with
        | some q => String.mk q
        | none => s
      let reason :=
        match reasonCapture cs with
        | some r => String.mk r
        | none => "Market analysis provides this insight"
      ⟨quote, reason⟩

/-! Claim theorems for the frontend embeddings. -/

/-- Claim C8: for every submission, the request body sent to the
orchestrator /process endpoint carries the mode field plus exactly the
mode-specific payload field: mode generate sends `context`, mode refine
sends `idea`, mode analyze sends `hypothesis` — both for the dashboard
form submission and for the three API client methods. -/
theorem c8_process_payload_by_mode :
    (∀ fd : FormData,
      (fd.mode = "generate" →
        handleFormSubmitPayload fd = ⟨"generate", none, none, some fd.context⟩) ∧
      (fd.mode = "refine" →
        handleFormSubmitPayload fd = ⟨"refine", none, some fd.idea, none⟩) ∧
      (fd.mode = "analyze" →
        handleFormSubmitPayload fd = ⟨"analyze", some fd.hypothesis, none, none⟩)) ∧
    (∀ c, generateHypothesisPayload c = ⟨"generate", none, none, some c⟩) ∧
    (∀ i, refineIdeaPayload i = ⟨"refine", none, some i, none⟩) ∧
    (∀ h, analyzeHypothesisPayload h = ⟨"analyze", some h, none, none⟩) := by
  refine ⟨?_, fun c => rfl, fun i => rfl, fun h => rfl⟩
  intro fd
  refine ⟨fun h => ?_, fun h => ?_, fun h => ?_⟩ <;>
    simp [handleFormSubmitPayload, h]

/-- Witness for C8: each of the three declared modes sends exactly its
own payload field. -/
theorem c8_process_payload_by_mode_witness :
    handleFormSubmitPayload ⟨"generate", "h0", "i0", "c0"⟩ =
      ⟨"generate", none, none, some "c0"⟩ ∧
    handleFormSubmitPayload ⟨"refine", "h0", "i0", "c0"⟩ =
      ⟨"refine", none, some "i0", none⟩ ∧
    handleFormSubmitPayload ⟨"analyze", "h0", "i0", "c0"⟩ =
      ⟨"analyze", some "h0", none, none⟩ :=
  ⟨(c8_process_payload_by_mode.1 ⟨"generate", "h0", "i0", "c0"⟩).1 rfl,
   (c8_process_payload_by_mode.1 ⟨"refine", "h0", "i0", "c0"⟩).2.1 rfl,
   (c8_process_payload_by_mode.1 ⟨"analyze", "h0", "i0", "c0"⟩).2.2 rfl⟩

/-- Claim C9: `processHypothesis` yields an error if and only if the
fetch itself fails, the HTTP response is not ok, or the body is not
parseable JSON; on an ok response with a parseable body it returns the
parsed JSON body unchanged. -/
theorem c9_processHypothesis_error_iff :
    ∀ (α : Type) (r : Option (HttpResponse α)),
      (isErr (processHypothesis r) = true ↔
        r = none ∨ ∃ resp, r = some resp ∧ (resp.ok = false ∨ resp.jsonBody = none)) ∧
      (∀ (resp : HttpResponse α) (j : α),
        r = some resp → resp.ok = true → resp.jsonBody = some j →
        processHypothesis r = Except.ok j) := by
  intro α r
  constructor
  · rcases r with _ | ⟨ok, code, body⟩
    · simp [processHypothesis, isErr]
    · rcases ok with _ | _ <;> rcases body with _ | j <;>
        simp [processHypothesis, isErr]
  · intro resp j hr hok hj
    subst hr
    simp [processHypothesis, hok, hj]

/-- Witness for C9: an ok response with parsed body 42 is returned
unchanged, and a network failure is an error. -/
theorem c9_processHypothesis_error_iff_witness :
    processHypothesis (some (⟨true, 200, some 42⟩ : HttpResponse Nat)) = Except.ok 42 ∧
    isErr (processHypothesis (none : Option (HttpResponse Nat))) = true :=
  ⟨(c9_processHypothesis_error_iff Nat (some ⟨true, 200, some 42⟩)).2
      ⟨true, 200, some 42⟩ 42 rfl rfl rfl,
   (c9_processHypothesis_error_iff Nat none).1.mpr (Or.inl rfl)⟩

theorem takeWhile_drop_until_delim (body rest : List Char) (d2 : Char)
    (hbody : ∀ c ∈ body, isQuoteDelim c = false) (h2 : isQuoteDelim d2 = true) :
    (body ++ d2 :: rest).takeWhile (fun d => !isQuoteDelim d) = body ∧
    (body ++ d2 :: rest).dropWhile (fun d => !isQuoteDelim d) = d2 :: rest := by
  induction body with
  | nil => simp [List.takeWhile_cons, List.dropWhile_cons, h2]
  | cons b bs ih =>
    have hb : isQuoteDelim b = false := hbody b (List.mem_cons_self _ _)
    have ih' := ih (fun c hc => hbody c (List.mem_cons_of_mem _ hc))
    simp [List.takeWhile_cons, List.dropWhile_cons, hb, ih'.1, ih'.2]

theorem firstQuotedBody_of_le_one {cs : List Char}
    (h : cs.countP isQuoteDelim ≤ 1) : firstQuotedBody cs = none := by
  induction cs with
  | nil => rfl
  | cons c rest ih =>
    rw [List.countP_cons] at h
    by_cases hc : isQuoteDelim c = true
    · have h0 : rest.countP isQuoteDelim = 0 := by
        simp only [hc, if_true] at h
        omega
      have hall : ∀ a ∈ rest, isQuoteDelim a = false := by
        intro a ha
        have := List.countP_eq_zero.mp h0 a ha
        simpa using this
      have hpost : rest.dropWhile (fun d => !isQuoteDelim d) = [] := by
        rw [List.dropWhile_eq_nil_iff]
        intro x hx
        simp [hall x hx]
      simp [firstQuotedBody, hc, hpost]
    · have hc' : isQuoteDelim c = false := by simpa using hc
      have h' : rest.countP isQuoteDelim ≤ 1 := by
        simp only [hc', if_false] at h
        omega
      simp [firstQuotedBody, hc', ih h']

theorem firstQuotedBody_decomp (pre body rest : List Char) (d1 d2 : Char)
    (hpre : ∀ c ∈ pre, isQuoteDelim c = false)
    (hbody : ∀ c ∈ body, isQuoteDelim c = false)
    (h1 : isQuoteDelim d1 = true) (h2 : isQuoteDelim d2 = true) :
    firstQuotedBody (pre ++ d1 :: body ++ d2 :: rest) = some body := by
  induction pre with
  | nil =>
    have htw := takeWhile_drop_until_delim body rest d2 hbody h2
    simp [firstQuotedBody, h1, htw.1, htw.2]
  | cons p ps ih =>
    have hp : isQuoteDelim p = false := hpre p (List.mem_cons_self _ _)
    have ih' := ih (fun c hc => hpre c (List.mem_cons_of_mem _ hc))
    simpa [firstQuotedBody, hp] using ih'

/-- Claim C10: `extractQuoteAndReason` is total and never yields null
fields.  Falsy inputs return empty quote and reason.  For a non-empty
string the quote is the first quoted substring — the text strictly
between the first two quote-delimiter characters — or the whole input
when the string holds at most one delimiter; the reason is the captured
text after the first case-insensitive `Analysis:` or `Reason:` marker,
or the fixed fallback string when no marker occurs. -/
theorem c10_extractQuoteAndReason_total :
    extractQuoteAndReason none = ⟨"", ""⟩ ∧
    extractQuoteAndReason (some "") = ⟨"", ""⟩ ∧
    (∀ s : String, s ≠ "" →
      (s.toList.countP isQuoteDelim ≤ 1 →
        (extractQuoteAndReason (some s)).quote = s) ∧
      (∀ (pre body rest : List Char) (d1 d2 : Char),
        s.toList = pre ++ d1 :: body ++ d2 :: rest →
        (∀ c ∈ pre, isQuoteDelim c = false) →
        (∀ c ∈ body, isQuoteDelim c = false) →
        isQuoteDelim d1 = true → isQuoteDelim d2 = true →
        (extractQuoteAndReason (some s)).quote = String.mk body) ∧
      (reasonCapture s.toList = none →
        (extractQuoteAndReason (some s)).reason = "Market analysis provides this insight") ∧
      (∀ r : List Char, reasonCapture s.toList = some r →
        (extractQuoteAndReason (some s)).reason = String.mk r)) := by
  refine ⟨rfl, rfl, ?_⟩
  intro s hs
  refine ⟨?_, ?_, ?_, ?_⟩
  · intro hcount
    have hn : firstQuotedBody s.data = none := firstQuotedBody_of_le_one hcount
    simp [extractQuoteAndReason, hs, hn]
  · intro pre body rest d1 d2 heq hpre hbody h1 h2
    have hq : firstQuotedBody s.data = some body := by
      show firstQuotedBody s.toList = some body
      rw [heq]
      exact firstQuotedBody_decomp pre body rest d1 d2 hpre hbody h1 h2
    simp [extractQuoteAndReason, hs, hq, String.mk]
  · intro hrc
    have hrc' : reasonCapture s.data = none := hrc
    simp [extractQuoteAndReason, hs, hrc']
  · intro r hrc
    have hrc' : reasonCapture s.data = some r := hrc
    simp [extractQuoteAndReason, hs, hrc', String.mk]

/-- Witness for C10 on concrete strings: a delimiter-free input is
returned whole with the fallback reason, an ASCII-double-quoted span is
extracted, and a `Reason:` marker yields its captured text. -/
theorem c10_extractQuoteAndReason_total_witness :
    (extractQuoteAndReason (some "no quoted span")).quote = "no quoted span" ∧
    (extractQuoteAndReason (some "no quoted span")).reason =
      "Market analysis provides this insight" ∧
    (extractQuoteAndReason (some "ab\"cd\"ef")).quote = "cd" ∧
    (extractQuoteAndReason (some "Data point Reason: pattern fits")).reason =
      "pattern fits" := by
  refine ⟨?_, ?_, ?_, ?_⟩
  · exact (c10_extractQuoteAndReason_total.2.2 "no quoted span" (by decide)).1 (by decide)
  · exact (c10_extractQuoteAndReason_total.2.2 "no quoted span" (by decide)).2.2.1 (by decide)
  · have hb := (c10_extractQuoteAndReason_total.2.2 "ab\"cd\"ef" (by decide)).2.1
      ['a', 'b'] ['c', 'd'] ['e', 'f'] (Char.ofNat 34) (Char.ofNat 34)
      (by decide) (by decide) (by decide) (by decide) (by decide)
    exact hb.trans (by decide)
  · have hd := (c10_extractQuoteAndReason_total.2.2
      "Data point Reason: pattern fits" (by decide)).2.2.2
      "pattern fits".toList (by decide)
    exact hd.trans (by decide)

/-! Helper lemmas. -/

theorem smax_cases (a b : Strength) : smax a b = a ∨ smax a b = b := by
  unfold smax; split
  · exact Or.inr rfl
  · exact Or.inl rfl

theorem le_smax_left (a b : Strength) : a.toNat ≤ (smax a b).toNat := by
  unfold smax; split
  · assumption
  · exact Nat.le_refl _

theorem le_smax_right (a b : Strength) : b.toNat ≤ (smax a b).toNat := by
  unfold smax; split
  · exact Nat.le_refl _
  · omega

theorem smax_strong (a : Strength) : smax a Strength.Strong = Strength.Strong := by
  cases a <;> rfl

theorem wt_default_le (s : Strength) : wt defaultWeights s ≤ 5 := by
  cases s <;> simp [wt, defaultWeights]

theorem clamp_mono {a b : Int} (h : a ≤ b) : clamp a ≤ clamp b := by
  unfold clamp; split <;> split <;> omega

theorem ite_eq_right_or_left {α : Type} (c : Prop) [Decidable c] (a b : α) :
    (if c then a else b) = b ∨ (if c then a else b) = a := by
  by_cases h : c
  · exact Or.inr (if_pos h)
  · exact Or.inl (if_neg h)

theorem sumW_default_eq (l : List EvidenceItem) :
    sumW defaultWeights l =
      5 * ((l.countP (fun i => decide (i.strength = Strength.Strong)) : Nat) : Int) +
      2 * ((l.countP (fun i => decide (i.strength = Strength.Moderate)) : Nat) : Int) := by
  induction l with
  | nil => simp [sumW]
  | cons x xs ih =>
    have hcons : sumW defaultWeights (x :: xs) =
        wt defaultWeights x.strength + sumW defaultWeights xs := rfl
    rw [hcons, ih]
    cases hs : x.strength <;>
      simp [wt, defaultWeights, List.countP_cons, hs] <;> omega

theorem key_of_mem_insertItem {c x : EvidenceItem} {m : List EvidenceItem}
    (h : c ∈ insertItem x m) :
    (c.source = x.source ∧ c.quote = x.quote) ∨
      ∃ y ∈ m, c.source = y.source ∧ c.quote = y.quote := by
  induction m with
  | nil =>
    simp only [insertItem, List.mem_singleton] at h
    subst h
    exact Or.inl ⟨rfl, rfl⟩
  | cons y ys ih =>
    simp only [insertItem] at h
    split at h
    · rcases List.mem_cons.mp h with hc | hc
      · subst hc
        exact Or.inr ⟨y, List.mem_cons_self _ _, rfl, rfl⟩
      · exact Or.inr ⟨c, List.mem_cons_of_mem _ hc, rfl, rfl⟩
    · rcases List.mem_cons.mp h with hc | hc
      · subst hc
        exact Or.inr ⟨c, List.mem_cons_self _ _, rfl, rfl⟩
      · rcases ih hc with h1 | ⟨z, hz, h2⟩
        · exact Or.inl h1
        · exact Or.inr ⟨z, List.mem_cons_of_mem _ hz, h2⟩

theorem exists_key_insertItem (x : EvidenceItem) (m : List EvidenceItem) :
    ∃ c, c ∈ insertItem x m ∧ c.source = x.source ∧ c.quote = x.quote ∧
      x.strength.toNat ≤ c.strength.toNat := by
  induction m with
  | nil =>
    exact ⟨x, by simp [insertItem], rfl, rfl, Nat.le_refl _⟩
  | cons y ys ih =>
    by_cases hkey : y.source = x.source ∧ y.quote = x.quote
    · refine ⟨{ y with strength := smax y.strength x.strength }, ?_, hkey.1, hkey.2, ?_⟩
      · simp only [insertItem, if_pos hkey]
        exact List.mem_cons_self _ _
      · exact le_smax_right _ _
    · obtain ⟨c, hc, h⟩ := ih
      refine ⟨c, ?_, h⟩
      simp only [insertItem, if_neg hkey]
      exact List.mem_cons_of_mem _ hc

theorem mem_insertItem_preserve {c : EvidenceItem} {m : List EvidenceItem}
    (x : EvidenceItem) (h : c ∈ m) :
    ∃ c', c' ∈ insertItem x m ∧ c'.source = c.source ∧ c'.quote = c.quote ∧
      c.strength.toNat ≤ c'.strength.toNat := by
  induction m with
  | nil => cases h
  | cons y ys ih =>
    rcases List.mem_cons.mp h with hc | hc
    · subst hc
      by_cases hkey : c.source = x.source ∧ c.quote = x.quote
      · refine ⟨{ c with strength := smax c.strength x.strength }, ?_, rfl, rfl, le_smax_left _ _⟩
        simp only [insertItem, if_pos hkey]
        exact List.mem_cons_self _ _
      · refine ⟨c, ?_, rfl, rfl, Nat.le_refl _⟩
        simp only [insertItem, if_neg hkey]
        exact List.mem_cons_self _ _
    · by_cases hkey : y.source = x.source ∧ y.quote = x.quote
      · refine ⟨c, ?_, rfl, rfl, Nat.le_refl _⟩
        simp only [insertItem, if_pos hkey]
        exact List.mem_cons_of_mem _ hc
      · obtain ⟨c', hc', h'⟩ := ih hc
        refine ⟨c', ?_, h'⟩
        simp only [insertItem, if_neg hkey]
        exact List.mem_cons_of_mem _ hc'

theorem mem_insertItem_cases {c x : EvidenceItem} {m : List EvidenceItem}
    (h : c ∈ insertItem x m) :
    c = x ∨ c ∈ m ∨
      ∃ y ∈ m, (y.source = x.source ∧ y.quote = x.quote) ∧
        c = { y with strength := smax y.strength x.strength } := by
  induction m with
  | nil =>
    simp only [insertItem, List.mem_singleton] at h
    exact Or.inl h
  | cons y ys ih =>
    simp only [insertItem] at h
    split at h
    · next hkey =>
      rcases List.mem_cons.mp h with hc | hc
      · exact Or.inr (Or.inr ⟨y, List.mem_cons_self _ _, hkey, hc⟩)
      · exact Or.inr (Or.inl (List.mem_cons_of_mem _ hc))
    · rcases List.mem_cons.mp h with hc | hc
      · exact Or.inr (Or.inl (hc ▸ List.mem_cons_self _ _))
      · rcases ih hc with h1 | h2 | ⟨z, hz, h3⟩
        · exact Or.inl h1
        · exact Or.inr (Or.inl (List.mem_cons_of_mem _ h2))
        · exact Or.inr (Or.inr ⟨z, List.mem_cons_of_mem _ hz, h3⟩)

theorem strength_realized {c : EvidenceItem} {l : List EvidenceItem}
    (h : c ∈ dedup l) :
    ∃ a, a ∈ l ∧ a.source = c.source ∧ a.quote = c.quote ∧ a.strength = c.strength := by
  induction l generalizing c with
  | nil => cases h
  | cons x xs ih =>
    rcases mem_insertItem_cases h with h1 | h2 | ⟨y, hy, hkey, hc⟩
    · subst h1
      exact ⟨c, List.mem_cons_self _ _, rfl, rfl, rfl⟩
    · obtain ⟨a, ha, h'⟩ := ih h2
      exact ⟨a, List.mem_cons_of_mem _ ha, h'⟩
    · rcases smax_cases y.strength x.strength with hm | hm
      · obtain ⟨a, ha, hs1, hs2, hs3⟩ := ih hy
        subst hc
        exact ⟨a, List.mem_cons_of_mem _ ha, hs1, hs2, by simp [hs3, hm]⟩
      · subst hc
        refine ⟨x, List.mem_cons_self _ _, ?_, ?_, by simp [hm]⟩
        · exact hkey.1.symm
        · exact hkey.2.symm

theorem insertItem_distinct {m : List EvidenceItem} (x : EvidenceItem)
    (h : distinctKeys m) : distinctKeys (insertItem x m) := by
  induction m with
  | nil =>
    simp only [insertItem, distinctKeys]
    exact List.pairwise_singleton _ _
  | cons y ys ih =>
    rcases List.pairwise_cons.mp h with ⟨hy, hys⟩
    by_cases hkey : y.source = x.source ∧ y.quote = x.quote
    · simp only [insertItem, if_pos hkey, distinctKeys]
      exact List.pairwise_cons.mpr ⟨fun b hb => hy b hb, hys⟩
    · simp only [insertItem, if_neg hkey, distinctKeys]
      refine List.pairwise_cons.mpr ⟨?_, ih hys⟩
      intro b hb hcontra
      rcases key_of_mem_insertItem hb with h1 | ⟨z, hz, h2⟩
      · exact hkey ⟨hcontra.1.trans h1.1, hcontra.2.trans h1.2⟩
      · exact hy z hz ⟨hcontra.1.trans h2.1, hcontra.2.trans h2.2⟩

theorem dedup_distinct (l : List EvidenceItem) : distinctKeys (dedup l) := by
  induction l with
  | nil => exact List.Pairwise.nil
  | cons x xs ih => exact insertItem_distinct x ih

theorem countP_le_one_of_distinct {m : List EvidenceItem}
    (h : distinctKeys m) (s q : String) :
    m.countP (fun i => decide (i.source = s ∧ i.quote = q)) ≤ 1 := by
  induction m with
  | nil => simp
  | cons y ys ih =>
    rcases List.pairwise_cons.mp h with ⟨hy, hys⟩
    rw [List.countP_cons]
    by_cases hmatch : y.source = s ∧ y.quote = q
    · have h0 : ys.countP (fun i => decide (i.source = s ∧ i.quote = q)) = 0 := by
        rw [List.countP_eq_zero]
        intro a ha
        simp only [decide_eq_true_eq]
        intro hak
        exact hy a ha ⟨hmatch.1.trans hak.1.symm, hmatch.2.trans hak.2.symm⟩
      rw [h0]
      split <;> simp
    · have hif : decide (y.source = s ∧ y.quote = q) = false := by
        simp only [decide_eq_false_iff_not]
        exact hmatch
      rw [hif]
      simpa using ih hys

/-- Claim C1: for every Evidence Item set, the Result Aggregator's
confidence score equals
`clamp(50 + 5*strongConfirmations + 2*moderateConfirmations -
5*strongContradictions - 2*moderateContradictions, 0, 100)`, the counts
being taken over the aggregated confirmation/contradiction lists; and
for the spec's scenario of exactly one Strong confirming item and one
Strong contradicting item the score is 50 with confirmations count 1
and contradictions count 1. -/
theorem c1_confidence_formula :
    (∀ (items : List EvidenceItem) (sIn rIn : Option String),
      (aggregate defaultWeights items sIn rIn).confidence =
        clamp (50
          + 5 * countStrength Strength.Strong (aggregate defaultWeights items sIn rIn).confirmations
          + 2 * countStrength Strength.Moderate (aggregate defaultWeights items sIn rIn).confirmations
          - 5 * countStrength Strength.Strong (aggregate defaultWeights items sIn rIn).contradictions
          - 2 * countStrength Strength.Moderate (aggregate defaultWeights items sIn rIn).contradictions)) ∧
    ((aggregate defaultWeights
        [⟨"Demand is rising", "supports the move", "fakeNews1", Strength.Strong, Polarity.confirms⟩,
         ⟨"Inventories are building", "opposes the move", "fakeNews2", Strength.Strong, Polarity.contradicts⟩]
        (some "synthesis") (some "recommendation")).confidence = 50 ∧
     (aggregate defaultWeights
        [⟨"Demand is rising", "supports the move", "fakeNews1", Strength.Strong, Polarity.confirms⟩,
         ⟨"Inventories are building", "opposes the move", "fakeNews2", Strength.Strong, Polarity.contradicts⟩]
        (some "synthesis") (some "recommendation")).confirmationsCount = 1 ∧
     (aggregate defaultWeights
        [⟨"Demand is rising", "supports the move", "fakeNews1", Strength.Strong, Polarity.confirms⟩,
         ⟨"Inventories are building", "opposes the move", "fakeNews2", Strength.Strong, Polarity.contradicts⟩]
        (some "synthesis") (some "recommendation")).contradictionsCount = 1) := by
  constructor
  · intro items sIn rIn
    simp only [aggregate, countStrength]
    rw [sumW_default_eq, sumW_default_eq]
    congr 1
    simp only [defaultWeights]
    omega
  · exact ⟨by decide, by decide, by decide⟩

/-- Claim C3: for every Analysis Result produced by the Result
Aggregator, the contradictions count equals the length of the
contradictions list, the confirmations count equals the length of the
confirmations list, synthesis and recommendations are never empty, and
on an empty evidence set they are the fixed insufficient-evidence
fallback while the confidence score is the neutral baseline 50. -/
theorem c3_output_normalization :
    ∀ (items : List EvidenceItem) (sIn rIn : Option String),
      (aggregate defaultWeights items sIn rIn).contradictionsCount =
        (aggregate defaultWeights items sIn rIn).contradictions.length ∧
      (aggregate defaultWeights items sIn rIn).confirmationsCount =
        (aggregate defaultWeights items sIn rIn).confirmations.length ∧
      (aggregate defaultWeights items sIn rIn).synthesis ≠ "" ∧
      (aggregate defaultWeights items sIn rIn).recommendations ≠ "" ∧
      (items = [] →
        (aggregate defaultWeights items sIn rIn).synthesis = insufficientEvidence ∧
        (aggregate defaultWeights items sIn rIn).recommendations = insufficientEvidence ∧
        (aggregate defaultWeights items sIn rIn).confidence = 50) := by
  intro items sIn rIn
  refine ⟨rfl, rfl, ?_, ?_, ?_⟩
  · simp only [aggregate]
    split
    · simp [insufficientEvidence]
    · next h =>
      push_neg at h
      exact h.2
  · simp only [aggregate]
    split
    · simp [insufficientEvidence]
    · next h =>
      push_neg at h
      exact h.2
  · intro h
    subst h
    refine ⟨by simp [aggregate], by simp [aggregate],
      by simp [aggregate, dedup, sumW, clamp, defaultWeights]⟩

/-- Witness for C3 at the empty evidence set. -/
theorem c3_output_normalization_witness :
    (aggregate defaultWeights [] none none).synthesis = insufficientEvidence ∧
    (aggregate defaultWeights [] none none).recommendations = insufficientEvidence ∧
    (aggregate defaultWeights [] none none).confidence = 50 :=
  (c3_output_normalization [] none none).2.2.2.2 rfl

/-- Claim C4: aggregation deduplicates items with identical
(source, quote) pairs.  (i) After deduplication at most one item
remains per (source, quote) pair; (ii) every input item is represented
by a surviving item of the same (source, quote) pair with at least its
strength; (iii) a surviving item's strength is realized by some input
item of the same pair (never invented); (iv) two items agreeing on
source and quote collapse into exactly the one item carrying the
higher of the two strengths. -/
theorem c4_dedup_source_quote :
    (∀ (l : List EvidenceItem) (s q : String),
      (dedup l).countP (fun i => decide (i.source = s ∧ i.quote = q)) ≤ 1) ∧
    (∀ (l : List EvidenceItem) (a : EvidenceItem), a ∈ l →
      ∃ c, c ∈ dedup l ∧ c.source = a.source ∧ c.quote = a.quote ∧
        a.strength.toNat ≤ c.strength.toNat) ∧
    (∀ (l : List EvidenceItem) (c : EvidenceItem), c ∈ dedup l →
      ∃ a, a ∈ l ∧ a.source = c.source ∧ a.quote = c.quote ∧
        a.strength = c.strength) ∧
    (∀ a b : EvidenceItem, a.source = b.source → a.quote = b.quote →
      dedup [a, b] = [{ b with strength := smax b.strength a.strength }]) := by
  refine ⟨?_, ?_, ?_, ?_⟩
  · intro l s q
    exact countP_le_one_of_distinct (dedup_distinct l) s q
  · intro l a ha
    induction l with
    | nil => cases ha
    | cons x xs ih =>
      rcases List.mem_cons.mp ha with hc | hc
      · subst hc
        exact exists_key_insertItem a (dedup xs)
      · obtain ⟨c, hc', hk1, hk2, hk3⟩ := ih hc
        obtain ⟨c', hc'', hp1, hp2, hp3⟩ := mem_insertItem_preserve x hc'
        exact ⟨c', hc'', hp1.trans hk1, hp2.trans hk2, Nat.le_trans hk3 hp3⟩
  · intro l c hc
    exact strength_realized hc
  · intro a b h1 h2
    have hstep : dedup [a, b] = insertItem a [b] := rfl
    rw [hstep]
    simp only [insertItem]
    rw [if_pos ⟨h1.symm, h2.symm⟩]

/-- Witness for C4: a Moderate and a Strong item with the same
(source, quote) collapse to the single Strong item, and a singleton
input is represented in its own deduplication. -/
theorem c4_dedup_source_quote_witness :
    dedup [⟨"q", "r1", "s", Strength.Moderate, Polarity.confirms⟩,
           ⟨"q", "r2", "s", Strength.Strong, Polarity.confirms⟩] =
      [⟨"q", "r2", "s", Strength.Strong, Polarity.confirms⟩] ∧
    (∃ c, c ∈ dedup [⟨"q", "r1", "s", Strength.Moderate, Polarity.confirms⟩] ∧
      c.source = "s" ∧ c.quote = "q" ∧
      Strength.toNat Strength.Moderate ≤ c.strength.toNat) := by
  constructor
  · exact (c4_dedup_source_quote.2.2.2
      ⟨"q", "r1", "s", Strength.Moderate, Polarity.confirms⟩
      ⟨"q", "r2", "s", Strength.Strong, Polarity.confirms⟩ rfl rfl).trans (by decide)
  · exact c4_dedup_source_quote.2.1
      [⟨"q", "r1", "s", Strength.Moderate, Polarity.confirms⟩]
      ⟨"q", "r1", "s", Strength.Moderate, Polarity.confirms⟩ (by simp)

theorem sumW_insertItem_strong {x : EvidenceItem}
    (hx : x.strength = Strength.Strong) (m : List EvidenceItem) :
    sumW defaultWeights m ≤ sumW defaultWeights (insertItem x m) := by
  induction m with
  | nil => simp [insertItem, sumW, hx, wt, defaultWeights]
  | cons y ys ih =>
    by_cases hkey : y.source = x.source ∧ y.quote = x.quote
    · simp only [insertItem, if_pos hkey]
      have h1 : sumW defaultWeights ({ y with strength := smax y.strength x.strength } :: ys) =
          wt defaultWeights (smax y.strength x.strength) + sumW defaultWeights ys := rfl
      have h2 : sumW defaultWeights (y :: ys) =
          wt defaultWeights y.strength + sumW defaultWeights ys := rfl
      rw [h1, h2, hx, smax_strong]
      have h3 := wt_default_le y.strength
      have h4 : wt defaultWeights Strength.Strong = 5 := rfl
      omega
    · simp only [insertItem, if_neg hkey]
      have h1 : sumW defaultWeights (y :: insertItem x ys) =
          wt defaultWeights y.strength + sumW defaultWeights (insertItem x ys) := rfl
      have h2 : sumW defaultWeights (y :: ys) =
          wt defaultWeights y.strength + sumW defaultWeights ys := rfl
      rw [h1, h2]
      omega

/-- Claim C7: the confidence score is monotone in strong confirmations —
adding a strong confirming Evidence Item to any Evidence Item set never
decreases the aggregated confidence score. -/
theorem c7_strong_confirmation_monotone :
    ∀ (l : List EvidenceItem) (x : EvidenceItem) (sIn rIn : Option String),
      x.polarity = Polarity.confirms → x.strength = Strength.Strong →
      (aggregate defaultWeights l sIn rIn).confidence ≤
        (aggregate defaultWeights (x :: l) sIn rIn).confidence := by
  intro l x sIn rIn hp hs
  simp only [aggregate]
  have hfc : (x :: l).filter (fun i => decide (i.polarity = Polarity.confirms)) =
      x :: l.filter (fun i => decide (i.polarity = Polarity.confirms)) := by
    simp [List.filter_cons, hp]
  have hfx : (x :: l).filter (fun i => decide (i.polarity = Polarity.contradicts)) =
      l.filter (fun i => decide (i.polarity = Polarity.contradicts)) := by
    simp [List.filter_cons, hp]
  rw [hfc, hfx]
  have hd : dedup (x :: l.filter (fun i => decide (i.polarity = Polarity.confirms))) =
      insertItem x (dedup (l.filter (fun i => decide (i.polarity = Polarity.confirms)))) := rfl
  rw [hd]
  apply clamp_mono
  have hmono := sumW_insertItem_strong hs
    (dedup (l.filter (fun i => decide (i.polarity = Polarity.confirms))))
  omega

/-- Witness for C7: adding one strong confirming item to the empty
evidence set does not decrease the score. -/
theorem c7_strong_confirmation_monotone_witness :
    (aggregate defaultWeights [] none none).confidence ≤
      (aggregate defaultWeights
        [⟨"q", "r", "s", Strength.Strong, Polarity.confirms⟩] none none).confidence :=
  c7_strong_confirmation_monotone []
    ⟨"q", "r", "s", Strength.Strong, Polarity.confirms⟩ none none rfl rfl

/-- Claim C5: the Result Aggregator is deterministic — under a fixed
weight configuration, identical Evidence Item sets (and identical
synthesis/recommendation inputs) always yield identical results, in
particular identical confidence scores. -/
theorem c5_aggregation_deterministic :
    ∀ (w : Weights) (l₁ l₂ : List EvidenceItem) (sIn rIn : Option String),
      l₁ = l₂ → aggregate w l₁ sIn rIn = aggregate w l₂ sIn rIn := by
  intro w l₁ l₂ sIn rIn h
  rw [h]

/-- Claim C2: if the Evidence Provider fails on every query issued
during a run (and the input is not the unrecoverable empty hypothesis),
the run still terminates in the `Finalized` state with status "partial"
or "success", and the contradictions and confirmations of the Analysis
Result are empty lists.  `reorder` ranges over all permutations of the
parallel research fan-out, so the conclusion holds for every completion
order. -/
theorem c2_provider_failure_partial :
    ∀ (normalize : String → Option String) (provider : String → Option (List Snippet))
      (classify : Snippet → Option EvidenceItem) (synthIn recIn : Option String)
      (reorder : List Snippet → List Snippet) (mkQueries : String → List String)
      (hyp : String),
      hyp ≠ "" →
      (∀ l, (reorder l).Perm l) →
      (∀ q, provider q = none) →
      (runOrchestrator normalize provider classify synthIn recIn reorder mkQueries hyp).finalState
          = OrchState.Finalized ∧
      ((runOrchestrator normalize provider classify synthIn recIn reorder mkQueries hyp).status
          = "partial" ∨
       (runOrchestrator normalize provider classify synthIn recIn reorder mkQueries hyp).status
          = "success") ∧
      (runOrchestrator normalize provider classify synthIn recIn reorder mkQueries hyp).contradictions
          = [] ∧
      (runOrchestrator normalize provider classify synthIn recIn reorder mkQueries hyp).confirmations
          = [] := by
  intro normalize provider classify synthIn recIn reorder mkQueries hyp hhyp hperm hfail
  have hfm : (mkQueries ((normalize hyp).getD hyp)).filterMap provider = [] := by
    rw [List.filterMap_eq_nil_iff]
    intro a _
    exact hfail a
  have hr0 : reorder [] = [] := (hperm []).eq_nil
  simp only [runOrchestrator]
  rw [if_neg hhyp, hfm]
  simp only [List.flatten_nil, hr0, List.filterMap_nil]
  refine ⟨trivial, ?_, by simp [aggregate, dedup], by simp [aggregate, dedup]⟩
  exact ite_eq_right_or_left _ _ _

/-- Witness for C2 with a concrete always-failing provider. -/
theorem c2_provider_failure_partial_witness :
    (runOrchestrator (fun s => some s) (fun _ => none) (fun _ => none) none none
        (fun l => l) (fun p => [p]) "Oil will exceed 85 by March").finalState
      = OrchState.Finalized ∧
    ((runOrchestrator (fun s => some s) (fun _ => none) (fun _ => none) none none
        (fun l => l) (fun p => [p]) "Oil will exceed 85 by March").status = "partial" ∨
     (runOrchestrator (fun s => some s) (fun _ => none) (fun _ => none) none none
        (fun l => l) (fun p => [p]) "Oil will exceed 85 by March").status = "success") ∧
    (runOrchestrator (fun s => some s) (fun _ => none) (fun _ => none) none none
        (fun l => l) (fun p => [p]) "Oil will exceed 85 by March").contradictions = [] ∧
    (runOrchestrator (fun s => some s) (fun _ => none) (fun _ => none) none none
        (fun l => l) (fun p => [p]) "Oil will exceed 85 by March").confirmations = [] :=
  c2_provider_failure_partial (fun s => some s) (fun _ => none) (fun _ => none)
    none none (fun l => l) (fun p => [p]) "Oil will exceed 85 by March"
    (by decide) (fun l => List.Perm.refl l) (fun _ => rfl)

/-- Claim C6: in every completed run the trace entries appear in the
fixed stage-declaration order Context, Research,
Contradiction/Confirmation, Synthesis, Alert — for every provider,
classifier, and permutation `reorder` of the parallel intra-stage work,
i.e. regardless of intra-stage completion order. -/
theorem c6_trace_stage_order :
    ∀ (normalize : String → Option String) (provider : String → Option (List Snippet))
      (classify : Snippet → Option EvidenceItem) (synthIn recIn : Option String)
      (reorder : List Snippet → List Snippet) (mkQueries : String → List String)
      (hyp : String),
      hyp ≠ "" →
      (runOrchestrator normalize provider classify synthIn recIn reorder mkQueries hyp).trace.map
          TraceEntry.stage = stageNames := by
  intro normalize provider classify synthIn recIn reorder mkQueries hyp hhyp
  unfold runOrchestrator
  rw [if_neg hhyp]
  simp [stageNames]

/-- Witness for C6 at a concrete run. -/
theorem c6_trace_stage_order_witness :
    (runOrchestrator (fun s => some s) (fun _ => none) (fun _ => none) none none
        (fun l => l) (fun p => [p]) "Oil will exceed 85 by March").trace.map
      TraceEntry.stage = stageNames :=
  c6_trace_stage_order (fun s => some s) (fun _ => none) (fun _ => none) none none
    (fun l => l) (fun p => [p]) "Oil will exceed 85 by March" (by decide)

/-- Witness for C5 at a concrete one-item evidence set. -/
theorem c5_aggregation_deterministic_witness :
    aggregate defaultWeights
        [⟨"q", "r", "s", Strength.Strong, Polarity.confirms⟩] none none =
      aggregate defaultWeights
        [⟨"q", "r", "s", Strength.Strong, Polarity.confirms⟩] none none :=
  c5_aggregation_deterministic defaultWeights _ _ none none rfl

end TradeSage
